import Mathlib

/-!
Shallow embedding of `src/data/v2/stream.rs` of the `apca` crate: the
real-time market-data subscription layer (symbol model and normalization,
wire message model, message classification, and the subscription session's
control operations), together with proofs about it.

Rust strings (`Str = Cow<'static, str>`) are modelled as Lean `String`;
Rust compares them byte-wise, which for valid UTF-8 agrees with
lexicographic comparison of the code-point (`Char`) sequences, so the
comparator is embedded on `String.data : List Char`.
-/

namespace ApcaStream

/-- Lexicographic three-way comparison of character lists, mirroring the
byte-wise `Ord`/`PartialOrd` comparison of Rust `str` values. -/
def lexCmp : List Char → List Char → Ordering
  | [], [] => Ordering.eq
  | [], _ :: _ => Ordering.lt
  | _ :: _, [] => Ordering.gt
  | a :: as, b :: bs =>
    if a < b then Ordering.lt
    else if b < a then Ordering.gt
    else lexCmp as bs

/-- Rust's `Str` type (`Cow<'static, str>`). -/
abbrev Str := String

/-- Three-way comparison on `Str`, byte-wise as in Rust. -/
def strCmp (a b : Str) : Ordering := lexCmp a.data b.data

/-- The `Symbol` enum: a specific equity symbol, or the wildcard `All`
standing for all available equities. -/
inductive Symbol where
  | sym (text : Str)
  | all
deriving DecidableEq

/-- The derived `PartialOrd` on `Symbol`: variants compare by declaration
order (`Symbol(_) < All`), and two `Symbol(_)` values compare by their
text. As in Rust, the result is an `Option Ordering`. -/
def Symbol.pcmp : Symbol → Symbol → Option Ordering
  | Symbol.sym a, Symbol.sym b => some (strCmp a b)
  | Symbol.sym _, Symbol.all => some Ordering.lt
  | Symbol.all, Symbol.sym _ => some Ordering.gt
  | Symbol.all, Symbol.all => some Ordering.eq

/-- The `From<&str>`/`From<String>` conversions for `Symbol`: the literal
string "*" becomes the wildcard, anything else a specific symbol. -/
def Symbol.fromText (text : Str) : Symbol :=
  if text = "*" then Symbol.all else Symbol.sym text

/-- One step of the sortedness check in `is_normalized`: the inner `check`
closure returns `false` exactly when `partial_cmp` yields `Greater` or
`None`. -/
def leB (x y : Symbol) : Bool :=
  !(decide (Symbol.pcmp x y = some Ordering.gt ∨ Symbol.pcmp x y = none))

/-- The iteration of `check` over the remaining symbols, threading the
last symbol seen (the `it.all(check(&mut last))` loop). -/
def chainOk : Symbol → List Symbol → Bool
  | _, [] => true
  | last, curr :: rest => leB last curr && chainOk curr rest

/-- `is_normalized`: a slice is normalized if it is empty, or the single
element `All`, or contains no `All` and is "sorted" per `check` (which
tolerates adjacent equal elements, like `Iterator::is_sorted_by`). -/
def is_normalized (symbols : List Symbol) : Bool :=
  if 1 < symbols.length ∧ Symbol.all ∈ symbols then
    false
  else
    match symbols with
    | [] => true
    | first :: rest => chainOk first rest

/-- Helper for `dedup`: drop elements equal to the previously kept one
(`Vec::dedup` removes consecutive repeated elements, keeping the first of
each run). -/
def dedupTail (last : Symbol) : List Symbol → List Symbol
  | [] => []
  | curr :: rest =>
    if last = curr then dedupTail last rest else curr :: dedupTail curr rest

/-- `Vec::dedup`: remove consecutive repeated elements. -/
def dedup : List Symbol → List Symbol
  | [] => []
  | first :: rest => first :: dedupTail first rest

/-- The inner `normalize_now`: collapse to `[All]` when the wildcard is
present, otherwise sort by the `Symbol` comparator and dedup. -/
def normalize_now (symbols : List Symbol) : List Symbol :=
  if Symbol.all ∈ symbols then
    [Symbol.all]
  else
    dedup (List.mergeSort symbols leB)

/-- `normalize`: a no-op when the input already satisfies `is_normalized`,
otherwise run `normalize_now`. -/
def normalize (symbols : List Symbol) : List Symbol :=
  if !(is_normalized symbols) then
    normalize_now symbols
  else
    symbols

/-- Spec-side notion (from the spec's words, for comparison with the
code): a list is strictly increasing when every adjacent pair compares
as `Less` under the `Symbol` order. -/
def specStrictlyIncreasing : List Symbol → Bool
  | [] => true
  | [_] => true
  | a :: b :: rest =>
    decide (Symbol.pcmp a b = some Ordering.lt) && specStrictlyIncreasing (b :: rest)

/-- Spec-side notion: a list is non-decreasing when every adjacent pair
compares as `Less` or `Equal` under the `Symbol` order. -/
def specNonDecreasing : List Symbol → Bool
  | [] => true
  | [_] => true
  | a :: b :: rest =>
    decide (Symbol.pcmp a b = some Ordering.lt ∨ Symbol.pcmp a b = some Ordering.eq) &&
      specNonDecreasing (b :: rest)

theorem lexCmp_self : ∀ a : List Char, lexCmp a a = Ordering.eq
  | [] => rfl
  | c :: rest => by simp [lexCmp, lt_irrefl, lexCmp_self rest]

theorem lexCmp_eq_eq_iff : ∀ a b : List Char, lexCmp a b = Ordering.eq ↔ a = b
  | [], [] => by simp [lexCmp]
  | [], _ :: _ => by simp [lexCmp]
  | _ :: _, [] => by simp [lexCmp]
  | a :: as, b :: bs => by
    by_cases hab : a < b
    · simp [lexCmp, hab]
      intro h
      exact absurd h (ne_of_lt hab)
    · by_cases hba : b < a
      · simp [lexCmp, hab, hba]
        intro h
        exact absurd h.symm (ne_of_lt hba)
      · have hab' : a = b := le_antisymm (not_lt.mp hba) (not_lt.mp hab)
        simp [lexCmp, hab, hba, hab', lexCmp_eq_eq_iff as bs]

theorem lexCmp_gt_iff_lt : ∀ a b : List Char, lexCmp a b = Ordering.gt ↔ lexCmp b a = Ordering.lt
  | [], [] => by simp [lexCmp]
  | [], _ :: _ => by simp [lexCmp]
  | _ :: _, [] => by simp [lexCmp]
  | a :: as, b :: bs => by
    by_cases hab : a < b
    · have hba : ¬ b < a := not_lt.mpr hab.le
      simp [lexCmp, hab, hba]
    · by_cases hba : b < a
      · simp [lexCmp, hab, hba]
      · simp [lexCmp, hab, hba, lexCmp_gt_iff_lt as bs]

theorem lexCmp_ne_gt_trans :
    ∀ a b c : List Char,
      lexCmp a b ≠ Ordering.gt → lexCmp b c ≠ Ordering.gt → lexCmp a c ≠ Ordering.gt
  | [], b, c => by
    intro _ _
    cases c <;> simp [lexCmp]
  | _ :: _, [], _ => by
    intro h1 _
    exact absurd rfl h1
  | _ :: _, _ :: _, [] => by
    intro _ h2
    exact absurd rfl h2
  | a :: as, b :: bs, c :: cs => by
    intro h1 h2
    simp only [lexCmp] at h1 h2 ⊢
    by_cases hab : a < b
    · -- from h2: b < c or b = c, so a < c either way
      by_cases hbc : b < c
      · rw [if_pos (lt_trans hab hbc)]
        simp
      · by_cases hcb : c < b
        · rw [if_neg hbc, if_pos hcb] at h2
          exact absurd rfl h2
        · have hbc' : b = c := le_antisymm (not_lt.mp hcb) (not_lt.mp hbc)
          rw [if_pos (hbc' ▸ hab)]
          simp
    · by_cases hba : b < a
      · rw [if_neg hab, if_pos hba] at h1
        exact absurd rfl h1
      · have hab' : a = b := le_antisymm (not_lt.mp hba) (not_lt.mp hab)
        rw [if_neg hab, if_neg hba] at h1
        by_cases hbc : b < c
        · rw [if_pos (hab' ▸ hbc)]
          simp
        · by_cases hcb : c < b
          · rw [if_neg hbc, if_pos hcb] at h2
            exact absurd rfl h2
          · have hbc' : b = c := le_antisymm (not_lt.mp hcb) (not_lt.mp hbc)
            rw [if_neg hbc, if_neg hcb] at h2
            have hac : ¬ a < c := by rw [hab', hbc']; exact lt_irrefl c
            have hca : ¬ c < a := by rw [hab', hbc']; exact lt_irrefl c
            rw [if_neg hac, if_neg hca]
            exact lexCmp_ne_gt_trans as bs cs h1 h2

theorem lexCmp_lt_iff_lex :
    ∀ a b : List Char, lexCmp a b = Ordering.lt ↔ List.Lex (· < ·) a b
  | [], [] => by
    simp [lexCmp]
  | [], _ :: _ => by
    simp [lexCmp]
    exact List.Lex.nil
  | _ :: _, [] => by
    simp [lexCmp]
  | a :: as, b :: bs => by
    by_cases hab : a < b
    · simp [lexCmp, hab]
      exact List.Lex.rel hab
    · by_cases hba : b < a
      · simp [lexCmp, hab, hba]
        intro h
        cases h with
        | cons h => exact absurd rfl (ne_of_lt hba)
        | rel h => exact absurd h hab
      · have hab' : a = b := le_antisymm (not_lt.mp hba) (not_lt.mp hab)
        subst hab'
        simp only [lexCmp, if_neg hab, if_neg hba]
        rw [lexCmp_lt_iff_lex as bs]
        constructor
        · exact List.Lex.cons
        · intro h
          cases h with
          | cons h => exact h
          | rel h => exact absurd h hab

theorem strCmp_eq_eq_iff (a b : Str) : strCmp a b = Ordering.eq ↔ a = b := by
  rw [strCmp, lexCmp_eq_eq_iff]
  constructor
  · intro h
    cases a
    cases b
    exact congrArg String.mk h
  · intro h
    rw [h]

theorem pcmp_self (x : Symbol) : Symbol.pcmp x x = some Ordering.eq := by
  cases x with
  | sym a => simp [Symbol.pcmp, strCmp, lexCmp_self]
  | all => rfl

theorem pcmp_isSome (x y : Symbol) : (Symbol.pcmp x y).isSome = true := by
  cases x <;> cases y <;> simp [Symbol.pcmp]

theorem pcmp_eq_eq_iff (x y : Symbol) : Symbol.pcmp x y = some Ordering.eq ↔ x = y := by
  cases x <;> cases y <;> simp [Symbol.pcmp, strCmp_eq_eq_iff]

theorem pcmp_gt_iff_lt (x y : Symbol) :
    Symbol.pcmp x y = some Ordering.gt ↔ Symbol.pcmp y x = some Ordering.lt := by
  cases x <;> cases y <;> simp [Symbol.pcmp, strCmp, lexCmp_gt_iff_lt]

theorem leB_sym_iff (a b : Str) :
    leB (Symbol.sym a) (Symbol.sym b) = true ↔ lexCmp a.data b.data ≠ Ordering.gt := by
  simp [leB, Symbol.pcmp, strCmp]

theorem leB_iff (x y : Symbol) :
    leB x y = true ↔
      (Symbol.pcmp x y = some Ordering.lt ∨ Symbol.pcmp x y = some Ordering.eq) := by
  have hs := pcmp_isSome x y
  rw [leB]
  rcases ho : Symbol.pcmp x y with _ | o
  · rw [ho] at hs
    simp at hs
  · cases o <;> simp

theorem leB_eq_decide (x y : Symbol) :
    leB x y =
      decide (Symbol.pcmp x y = some Ordering.lt ∨ Symbol.pcmp x y = some Ordering.eq) := by
  by_cases h : Symbol.pcmp x y = some Ordering.lt ∨ Symbol.pcmp x y = some Ordering.eq
  · simp [h, (leB_iff x y).mpr h]
  · have hf : ¬ leB x y = true := fun hc => h ((leB_iff x y).mp hc)
    simp [h, Bool.eq_false_iff.mpr hf]

theorem leB_trans (a b c : Symbol) : leB a b → leB b c → leB a c := by
  intro h1 h2
  cases a with
  | all =>
    cases b with
    | all =>
      cases c with
      | all => exact h1
      | sym w => exact h2
    | sym v => simp [leB, Symbol.pcmp] at h1
  | sym u =>
    cases c with
    | all => simp [leB, Symbol.pcmp]
    | sym w =>
      cases b with
      | all => simp [leB, Symbol.pcmp] at h2
      | sym v =>
        rw [leB_sym_iff] at h1 h2 ⊢
        exact lexCmp_ne_gt_trans u.data v.data w.data h1 h2

theorem leB_total (a b : Symbol) : leB a b || leB b a := by
  cases a with
  | all =>
    cases b with
    | all => simp [leB, Symbol.pcmp]
    | sym v => simp [leB, Symbol.pcmp]
  | sym u =>
    cases b with
    | all => simp [leB, Symbol.pcmp]
    | sym v =>
      rw [Bool.or_eq_true, leB_sym_iff, leB_sym_iff]
      by_cases h : lexCmp u.data v.data = Ordering.gt
      · right
        rw [lexCmp_gt_iff_lt] at h
        simp [h]
      · exact Or.inl h

theorem le_and_ne_iff_lt (x y : Symbol) :
    (leB x y = true ∧ x ≠ y) ↔ Symbol.pcmp x y = some Ordering.lt := by
  rw [leB_iff]
  constructor
  · rintro ⟨hlt | heq, hne⟩
    · exact hlt
    · exact absurd ((pcmp_eq_eq_iff x y).mp heq) hne
  · intro h
    refine ⟨Or.inl h, fun he => ?_⟩
    rw [he, pcmp_self] at h
    simp at h

theorem chainOk_iff : ∀ (first : Symbol) (rest : List Symbol),
    chainOk first rest = true ↔ List.Chain' (fun a b => leB a b = true) (first :: rest)
  | _, [] => by simp [chainOk]
  | first, curr :: rest => by
    rw [chainOk, Bool.and_eq_true, List.chain'_cons, chainOk_iff curr rest]

theorem chainOk_eq_specNonDec : ∀ (first : Symbol) (rest : List Symbol),
    chainOk first rest = specNonDecreasing (first :: rest)
  | _, [] => rfl
  | first, curr :: rest => by
    simp only [chainOk, specNonDecreasing]
    rw [chainOk_eq_specNonDec curr rest, leB_eq_decide]

theorem specStrict_iff : ∀ l : List Symbol,
    specStrictlyIncreasing l = true ↔
      List.Chain' (fun a b => Symbol.pcmp a b = some Ordering.lt) l
  | [] => by simp [specStrictlyIncreasing]
  | [a] => by simp [specStrictlyIncreasing]
  | a :: b :: rest => by
    rw [show specStrictlyIncreasing (a :: b :: rest) =
        (decide (Symbol.pcmp a b = some Ordering.lt) && specStrictlyIncreasing (b :: rest))
        from rfl,
      Bool.and_eq_true, decide_eq_true_eq, List.chain'_cons, specStrict_iff (b :: rest)]

theorem specNonDec_iff : ∀ l : List Symbol,
    specNonDecreasing l = true ↔
      List.Chain'
        (fun a b => Symbol.pcmp a b = some Ordering.lt ∨ Symbol.pcmp a b = some Ordering.eq) l
  | [] => by simp [specNonDecreasing]
  | [a] => by simp [specNonDecreasing]
  | a :: b :: rest => by
    rw [show specNonDecreasing (a :: b :: rest) =
        (decide (Symbol.pcmp a b = some Ordering.lt ∨ Symbol.pcmp a b = some Ordering.eq) &&
          specNonDecreasing (b :: rest))
        from rfl,
      Bool.and_eq_true, decide_eq_true_eq, List.chain'_cons, specNonDec_iff (b :: rest)]

theorem mem_dedupTail : ∀ (l : List Symbol) (last x : Symbol),
    x ∈ last :: dedupTail last l ↔ x ∈ last :: l
  | [], _, _ => Iff.rfl
  | curr :: rest, last, x => by
    by_cases h : last = curr
    · rw [dedupTail, if_pos h]
      rw [mem_dedupTail rest last x]
      subst h
      simp only [List.mem_cons]
      tauto
    · rw [dedupTail, if_neg h]
      have hiff := mem_dedupTail rest curr x
      simp only [List.mem_cons] at hiff ⊢
      tauto

theorem chain_dedupTail : ∀ (l : List Symbol) (last : Symbol),
    List.Chain' (fun a b => leB a b = true) (last :: l) →
      List.Chain' (fun a b => leB a b = true ∧ a ≠ b) (last :: dedupTail last l)
  | [], _, _ => by simp [dedupTail]
  | curr :: rest, last, h => by
    rw [List.chain'_cons] at h
    by_cases he : last = curr
    · rw [dedupTail, if_pos he]
      apply chain_dedupTail rest last
      subst he
      exact h.2
    · rw [dedupTail, if_neg he]
      rw [List.chain'_cons]
      exact ⟨⟨h.1, he⟩, chain_dedupTail rest curr h.2⟩

theorem mem_dedup (l : List Symbol) (x : Symbol) : x ∈ dedup l ↔ x ∈ l := by
  cases l with
  | nil => exact Iff.rfl
  | cons first rest =>
    rw [show dedup (first :: rest) = first :: dedupTail first rest from rfl]
    exact mem_dedupTail rest first x

theorem chain_dedup (l : List Symbol)
    (h : List.Chain' (fun a b => leB a b = true) l) :
    List.Chain' (fun a b => leB a b = true ∧ a ≠ b) (dedup l) := by
  cases l with
  | nil => simp [dedup]
  | cons first rest =>
    rw [show dedup (first :: rest) = first :: dedupTail first rest from rfl]
    exact chain_dedupTail rest first h

theorem isNormalized_of_chain (l : List Symbol) (hall : Symbol.all ∉ l)
    (hch : List.Chain' (fun a b => leB a b = true) l) : is_normalized l = true := by
  have hc : ¬ (1 < l.length ∧ Symbol.all ∈ l) := fun hc => hall hc.2
  cases l with
  | nil => rfl
  | cons first rest =>
    rw [is_normalized.eq_def, if_neg hc]
    exact (chainOk_iff first rest).mpr hch

theorem chain_of_isNormalized (l : List Symbol) (h : is_normalized l = true) :
    List.Chain' (fun a b => leB a b = true) l := by
  cases l with
  | nil => exact List.chain'_nil
  | cons first rest =>
    by_cases hc : 1 < (first :: rest).length ∧ Symbol.all ∈ first :: rest
    · rw [is_normalized.eq_def, if_pos hc] at h
      exact absurd h (by simp)
    · rw [is_normalized.eq_def, if_neg hc] at h
      exact (chainOk_iff first rest).mp h

theorem isNormalized_all_mem (l : List Symbol) (h : is_normalized l = true)
    (hm : Symbol.all ∈ l) : l = [Symbol.all] := by
  by_cases hlen : 1 < l.length
  · rw [is_normalized.eq_def, if_pos ⟨hlen, hm⟩] at h
    exact absurd h (by simp)
  · have hpos : 0 < l.length := List.length_pos.mpr (List.ne_nil_of_mem hm)
    have h1 : l.length = 1 := by omega
    obtain ⟨x, hx⟩ := List.length_eq_one.mp h1
    subst hx
    simp only [List.mem_singleton] at hm
    rw [hm]

theorem mergeSort_chain (l : List Symbol) :
    List.Chain' (fun a b => leB a b = true) (List.mergeSort l leB) := by
  have hp := List.sorted_mergeSort leB_trans leB_total l
  exact List.Pairwise.chain' hp

theorem normalizeNow_isNormalized (l : List Symbol) :
    is_normalized (normalize_now l) = true := by
  rw [normalize_now]
  by_cases hall : Symbol.all ∈ l
  · rw [if_pos hall]
    rfl
  · rw [if_neg hall]
    apply isNormalized_of_chain
    · intro hmem
      rw [mem_dedup, List.mem_mergeSort] at hmem
      exact hall hmem
    · exact List.Chain'.imp (fun a b hab => hab.1) (chain_dedup _ (mergeSort_chain l))

theorem normalizeNow_strictChain (l : List Symbol) (hall : Symbol.all ∉ l) :
    List.Chain' (fun a b => Symbol.pcmp a b = some Ordering.lt) (normalize_now l) := by
  rw [normalize_now, if_neg hall]
  exact List.Chain'.imp (fun a b hab => (le_and_ne_iff_lt a b).mp hab)
    (chain_dedup _ (mergeSort_chain l))

theorem mem_normalizeNow (l : List Symbol) (hall : Symbol.all ∉ l) (x : Symbol) :
    x ∈ normalize_now l ↔ x ∈ l := by
  rw [normalize_now, if_neg hall, mem_dedup, List.mem_mergeSort]

theorem normalize_isNormalized (l : List Symbol) : is_normalized (normalize l) = true := by
  cases hb : is_normalized l <;> simp [normalize, hb, normalizeNow_isNormalized l]

theorem normalize_of_isNormalized (l : List Symbol) (h : is_normalized l = true) :
    normalize l = l := by
  simp [normalize, h]

theorem normalize_idem (l : List Symbol) : normalize (normalize l) = normalize l :=
  normalize_of_isNormalized (normalize l) (normalize_isNormalized l)

theorem normalize_all (l : List Symbol) (hm : Symbol.all ∈ l) :
    normalize l = [Symbol.all] := by
  cases hb : is_normalized l with
  | false => simp [normalize, hb, normalize_now, hm]
  | true =>
    have hl := isNormalized_all_mem l hb hm
    rw [hl]
    rfl

theorem mem_normalize (l : List Symbol) (hall : Symbol.all ∉ l) (x : Symbol) :
    x ∈ normalize l ↔ x ∈ l := by
  cases hb : is_normalized l with
  | false =>
    rw [show normalize l = normalize_now l by simp [normalize, hb]]
    exact mem_normalizeNow l hall x
  | true => simp [normalize, hb]

theorem normalize_mem_subset (l : List Symbol) (x : Symbol) (h : x ∈ normalize l) :
    x ∈ l := by
  cases hb : is_normalized l with
  | true => rwa [normalize_of_isNormalized l hb] at h
  | false =>
    rw [show normalize l = normalize_now l by simp [normalize, hb], normalize_now] at h
    by_cases hall : Symbol.all ∈ l
    · rw [if_pos hall] at h
      simp only [List.mem_singleton] at h
      exact h ▸ hall
    · rw [if_neg hall, mem_dedup, List.mem_mergeSort] at h
      exact h

/-- Aggregate (bar) data for an equity, with fields as decoded from the
wire. Prices are exact decimals (`num_decimal::Num`), modelled as `Rat`;
the `chrono` UTC timestamp is modelled as an integer instant. -/
structure Bar where
  symbol : Str
  open_price : Rat
  high_price : Rat
  low_price : Rat
  close_price : Rat
  volume : Nat
  timestamp : Int
deriving DecidableEq

/-- An error as reported by the Alpaca Data API: numeric code (`u64`,
decoded values, so modelled as `Nat`) plus human-readable message. -/
structure ApiError where
  code : Nat
  message : Str
deriving DecidableEq

/-- The inbound tagged message union, discriminated by the `T` field. -/
inductive DataMessage where
  | Bar (bar : Bar)
  | Success
  | Error (error : ApiError)
deriving DecidableEq

/-- The user-visible data subset. -/
inductive Data where
  | Bar (bar : Bar)
deriving DecidableEq

/-- The protocol-internal control-message subset. -/
inductive ControlMessage where
  | Success
  | Error (error : ApiError)
deriving DecidableEq

/-- A JSON decode failure (`serde_json::Error`), opaque payload. -/
structure JsonError where
  description : Str
deriving DecidableEq

/-- A transport-level failure (`tungstenite::Error`), opaque payload. -/
structure WebSocketError where
  description : Str
deriving DecidableEq

/-- `ParsedMessage = MessageResult<Result<DataMessage, JsonError>, WebSocketError>`:
an outer transport result wrapping an inner decode result. -/
abbrev ParsedMessage := Except WebSocketError (Except JsonError DataMessage)

/-- `UserMessage = Result<Result<Data, JsonError>, WebSocketError>`. -/
abbrev UserMessage := Except WebSocketError (Except JsonError Data)

/-- The `websocket_util::subscribe::Classification` sum (external
collaborator): a message is routed either to the data consumer or to the
subscription session. -/
inductive Classification (U : Type) (C : Type) where
  | UserMessage (user : U)
  | ControlMessage (control : C)
deriving DecidableEq

/-- `Message::classify` for `ParsedMessage`: bars become user-visible
data, success/error acknowledgements become control messages, and decode
or transport failures are passed through as user-visible results. -/
def classify (message : ParsedMessage) : Classification UserMessage ControlMessage :=
  match message with
  | Except.ok (Except.ok (DataMessage.Bar bar)) =>
      Classification.UserMessage (Except.ok (Except.ok (Data.Bar bar)))
  | Except.ok (Except.ok DataMessage.Success) =>
      Classification.ControlMessage ControlMessage.Success
  | Except.ok (Except.ok (DataMessage.Error error)) =>
      Classification.ControlMessage (ControlMessage.Error error)
  | Except.ok (Except.error err) => Classification.UserMessage (Except.ok (Except.error err))
  | Except.error err => Classification.UserMessage (Except.error err)

/-- `Message::is_error`: `user_message.as_ref().map(|result| result.is_err()).unwrap_or(true)` —
true for an outer transport failure or an inner decode failure, false for
a successfully decoded user message. -/
def is_error (user_message : UserMessage) : Bool :=
  match user_message with
  | Except.error _ => true
  | Except.ok (Except.error _) => true
  | Except.ok (Except.ok _) => false

/-- Modelled from the spec: the crate-level `Error` type (`crate::Error`,
outside `src/`); only the `Json` and `Str` variants used by this layer
are modelled. -/
inductive Error where
  | Json (error : JsonError)
  | Str (description : Str)
deriving DecidableEq

/-- The response delivered by the transport's request-correlation
primitive (`websocket_util::subscribe::Subscription::send`, an external
collaborator): an outer transport (sink) error, or `none` when the stream
closed before a response, or the correlated control message (itself a
`Result<ControlMessage, ()>`). -/
abbrev SendOutcome (E : Type) := Except E (Option (Except Unit ControlMessage))

/-- `Subscription::authenticate`, with the transport exchange abstracted
as its `SendOutcome`: the send error propagates as the outer result (`?`),
a `Success` response yields overall success, a structured `Error` response
yields a failure embedding message and code, and a closed stream yields a
distinct premature-closure failure. -/
def authenticate {E : Type} (sendResult : SendOutcome E) : Except E (Except Error Unit) :=
  match sendResult with
  | Except.error err => Except.error err
  | Except.ok (some (Except.ok ControlMessage.Success)) => Except.ok (Except.ok ())
  | Except.ok (some (Except.ok (ControlMessage.Error error))) =>
      Except.ok (Except.error (Error.Str
        ("failed to authenticate with server: " ++ error.message ++ " (" ++
          toString error.code ++ ")")))
  | Except.ok (some (Except.error ())) =>
      Except.ok (Except.error (Error.Str "failed to authenticate with server"))
  | Except.ok none =>
      Except.ok (Except.error (Error.Str
        "stream was closed before authorization message was received"))

/-- A `Symbols` list wrapper guaranteed to be normalized. -/
structure Normalized where
  symbols : List Symbol
deriving DecidableEq

/-- `From<Symbols> for Normalized`. -/
def Normalized.ofSymbols (symbols : List Symbol) : Normalized :=
  Normalized.mk (normalize symbols)

/-- `From<Vec<String>> for Normalized`: convert each text via
`Symbol::from` and normalize. -/
def Normalized.ofTexts (symbols : List Str) : Normalized :=
  Normalized.mk (normalize (symbols.map Symbol.fromText))

/-- The market data a client subscribes to; one category so far (bars). -/
structure MarketData where
  bars : Normalized
deriving DecidableEq

/-- Modelled from the spec: `Subscription::subscribe` is an unimplemented
stub (`todo!()`) in the source, so its behaviour is modelled from the
spec's words — send the delta, await one correlated response; on `Success`
merge the delta into the committed baseline (per category: union then
re-normalize) and return success; on a structured `Error`, a control
failure, or a closed stream leave the baseline unchanged and return the
corresponding failure (same shapes as `authenticate`); a transport send
failure propagates as the outer result. Returns the pair (caller-facing
result, new baseline). -/
def subscribeModel {E : Type} (baseline delta : MarketData)
    (sendResult : SendOutcome E) : Except E (Except Error Unit) × MarketData :=
  match sendResult with
  | Except.error err => (Except.error err, baseline)
  | Except.ok (some (Except.ok ControlMessage.Success)) =>
      (Except.ok (Except.ok ()),
        MarketData.mk (Normalized.mk (normalize
          (baseline.bars.symbols ++ delta.bars.symbols))))
  | Except.ok (some (Except.ok (ControlMessage.Error error))) =>
      (Except.ok (Except.error (Error.Str
        ("failed to subscribe with server: " ++ error.message ++ " (" ++
          toString error.code ++ ")"))), baseline)
  | Except.ok (some (Except.error ())) =>
      (Except.ok (Except.error (Error.Str "failed to subscribe with server")), baseline)
  | Except.ok none =>
      (Except.ok (Except.error (Error.Str
        "stream was closed before subscription response was received")), baseline)

/-- Modelled from the spec: `Subscription::unsubscribe` is an
unimplemented stub (`todo!()`) in the source; modelled symmetrically to
`subscribeModel`, except that on `Success` the delta's symbols are removed
from the baseline's categories, which are then re-normalized; symbols
outside the delta are left untouched. -/
def unsubscribeModel {E : Type} (baseline delta : MarketData)
    (sendResult : SendOutcome E) : Except E (Except Error Unit) × MarketData :=
  match sendResult with
  | Except.error err => (Except.error err, baseline)
  | Except.ok (some (Except.ok ControlMessage.Success)) =>
      (Except.ok (Except.ok ()),
        MarketData.mk (Normalized.mk (normalize
          (baseline.bars.symbols.filter
            (fun s => !(decide (s ∈ delta.bars.symbols)))))))
  | Except.ok (some (Except.ok (ControlMessage.Error error))) =>
      (Except.ok (Except.error (Error.Str
        ("failed to unsubscribe with server: " ++ error.message ++ " (" ++
          toString error.code ++ ")"))), baseline)
  | Except.ok (some (Except.error ())) =>
      (Except.ok (Except.error (Error.Str "failed to unsubscribe with server")), baseline)
  | Except.ok none =>
      (Except.ok (Except.error (Error.Str
        "stream was closed before subscription response was received")), baseline)

/-- C1, counterexample: for the wildcard-free list `["AAPL", "AAPL"]` the
result of `normalize` is not strictly increasing — `is_normalized` accepts
adjacent equal elements, so `normalize` returns the duplicate-containing
list unchanged, refuting the claim that every wildcard-free `normalize`
result is strictly increasing with no duplicates. -/
theorem c1_normalize_strict_counterexample :
    Symbol.all ∉ [Symbol.sym "AAPL", Symbol.sym "AAPL"] ∧
      specStrictlyIncreasing (normalize [Symbol.sym "AAPL", Symbol.sym "AAPL"]) = false := by
  decide

/-- C1 (amended): for every wildcard-free list `l`, `normalize l` is
non-decreasing under the `Symbol` order; it is strictly increasing (hence
duplicate-free) whenever `l` was not already accepted by `is_normalized`
(when it was accepted, `l` is returned unchanged, so adjacent equal
elements survive). -/
theorem c1_normalize_sorted_amended (l : List Symbol) (hall : Symbol.all ∉ l) :
    specNonDecreasing (normalize l) = true ∧
      (is_normalized l = false → specStrictlyIncreasing (normalize l) = true) := by
  constructor
  · rw [specNonDec_iff]
    have h := chain_of_isNormalized (normalize l) (normalize_isNormalized l)
    exact List.Chain'.imp (fun a b hab => (leB_iff a b).mp hab) h
  · intro hnn
    rw [specStrict_iff]
    rw [show normalize l = normalize_now l by simp [normalize, hnn]]
    exact normalizeNow_strictChain l hall

/-- C1 witness: the amended theorem applied to the unsorted wildcard-free
list `["SPY", "MSFT"]`. -/
theorem c1_normalize_sorted_witness :
    specNonDecreasing (normalize [Symbol.sym "SPY", Symbol.sym "MSFT"]) = true ∧
      specStrictlyIncreasing (normalize [Symbol.sym "SPY", Symbol.sym "MSFT"]) = true :=
  ⟨(c1_normalize_sorted_amended _ (by decide)).1,
    (c1_normalize_sorted_amended _ (by decide)).2 (by decide)⟩

/-- C2, counterexample: the list `["AAPL", "AAPL"]` has no wildcard, is
not strictly increasing, yet `is_normalized` returns true — the inner
`check` only rejects `Greater`/`None`, tolerating adjacent equal
elements, refuting the claimed "true iff strictly increasing". -/
theorem c2_is_normalized_counterexample :
    is_normalized [Symbol.sym "AAPL", Symbol.sym "AAPL"] = true ∧
      specStrictlyIncreasing [Symbol.sym "AAPL", Symbol.sym "AAPL"] = false ∧
      ¬ (1 < ([Symbol.sym "AAPL", Symbol.sym "AAPL"] : List Symbol).length ∧
          Symbol.all ∈ [Symbol.sym "AAPL", Symbol.sym "AAPL"]) := by
  decide

/-- C2 (amended): `is_normalized` returns false when the wildcard
co-occurs with any other element; otherwise it returns true iff the list
is non-decreasing under the `Symbol` order (adjacent equal elements are
accepted), with empty and single-element lists trivially normalized. -/
theorem c2_is_normalized_amended (l : List Symbol) :
    (1 < l.length ∧ Symbol.all ∈ l → is_normalized l = false) ∧
      (¬ (1 < l.length ∧ Symbol.all ∈ l) →
        (is_normalized l = true ↔ specNonDecreasing l = true)) := by
  constructor
  · intro hc
    rw [is_normalized.eq_def, if_pos hc]
  · intro hc
    cases l with
    | nil => exact Iff.rfl
    | cons first rest =>
      rw [is_normalized.eq_def, if_neg hc]
      show chainOk first rest = true ↔ specNonDecreasing (first :: rest) = true
      rw [chainOk_eq_specNonDec first rest]

/-- C2 witness: the amended theorem applied to a wildcard-plus-symbol
list (first part) and to a sorted two-symbol list (second part). -/
theorem c2_is_normalized_witness :
    is_normalized [Symbol.sym "AAPL", Symbol.all] = false ∧
      (is_normalized [Symbol.sym "MSFT", Symbol.sym "SPY"] = true ↔
        specNonDecreasing [Symbol.sym "MSFT", Symbol.sym "SPY"] = true) :=
  ⟨(c2_is_normalized_amended _).1 (by decide), (c2_is_normalized_amended _).2 (by decide)⟩

/-- C3: `normalize` is idempotent, and an already-normalized list is
returned unchanged (the function's no-op branch returns its argument;
the zero-allocation aspect of the Rust `Cow` is not representable in the
embedding). -/
theorem c3_normalize_idempotent (l : List Symbol) :
    normalize (normalize l) = normalize l ∧
      (is_normalized l = true → normalize l = l) :=
  ⟨normalize_idem l, normalize_of_isNormalized l⟩

/-- C3 witness: idempotence and the no-op branch at the already-normalized
list `["MSFT", "SPY"]`. -/
theorem c3_normalize_idempotent_witness :
    normalize (normalize [Symbol.sym "MSFT", Symbol.sym "SPY"]) =
        normalize [Symbol.sym "MSFT", Symbol.sym "SPY"] ∧
      normalize [Symbol.sym "MSFT", Symbol.sym "SPY"] =
        [Symbol.sym "MSFT", Symbol.sym "SPY"] :=
  ⟨(c3_normalize_idempotent _).1, (c3_normalize_idempotent _).2 (by decide)⟩

/-- C4: for every list containing the wildcard, `normalize` collapses to
the single-element wildcard list, whatever else the list contains. -/
theorem c4_wildcard_absorption (l : List Symbol) (hm : Symbol.all ∈ l) :
    normalize l = [Symbol.all] :=
  normalize_all l hm

/-- C4 witness: wildcard absorption at `["SPY", *, "MSFT"]`. -/
theorem c4_wildcard_absorption_witness :
    normalize [Symbol.sym "SPY", Symbol.all, Symbol.sym "MSFT"] = [Symbol.all] :=
  c4_wildcard_absorption _ (by decide)

/-- C5: the `Symbol` order puts every specific symbol strictly below the
wildcard; two specific symbols compare exactly as their texts compare
lexically (the comparator agrees with lexicographic order on the
character sequences); and the comparison is total — `partial_cmp` never
returns `None` — with equality and order-swap behaving as an order
should. -/
theorem c5_symbol_order :
    (∀ text : Str, Symbol.pcmp (Symbol.sym text) Symbol.all = some Ordering.lt) ∧
      (∀ a b : Str, Symbol.pcmp (Symbol.sym a) (Symbol.sym b) = some (strCmp a b)) ∧
      (∀ a b : Str,
        Symbol.pcmp (Symbol.sym a) (Symbol.sym b) = some Ordering.lt ↔
          List.Lex (· < ·) a.data b.data) ∧
      (∀ x y : Symbol, (Symbol.pcmp x y).isSome = true) ∧
      (∀ x y : Symbol, Symbol.pcmp x y = some Ordering.eq ↔ x = y) ∧
      (∀ x y : Symbol,
        Symbol.pcmp x y = some Ordering.gt ↔ Symbol.pcmp y x = some Ordering.lt) := by
  refine ⟨fun _ => rfl, fun _ _ => rfl, fun a b => ?_, pcmp_isSome, pcmp_eq_eq_iff,
    pcmp_gt_iff_lt⟩
  rw [show Symbol.pcmp (Symbol.sym a) (Symbol.sym b) = some (strCmp a b) from rfl]
  simp only [Option.some.injEq]
  rw [strCmp, lexCmp_lt_iff_lex]

/-- C6: `classify` maps a successfully decoded bar to user-visible data;
success/error acknowledgements to control messages (never to the user);
a decode failure to a user-visible error result (not dropped); and a
transport failure to a user-visible error result. -/
theorem c6_classify :
    (∀ bar : Bar, classify (Except.ok (Except.ok (DataMessage.Bar bar))) =
        Classification.UserMessage (Except.ok (Except.ok (Data.Bar bar)))) ∧
      (classify (Except.ok (Except.ok DataMessage.Success)) =
        Classification.ControlMessage ControlMessage.Success) ∧
      (∀ error : ApiError, classify (Except.ok (Except.ok (DataMessage.Error error))) =
        Classification.ControlMessage (ControlMessage.Error error)) ∧
      (∀ err : JsonError, classify (Except.ok (Except.error err)) =
        Classification.UserMessage (Except.ok (Except.error err))) ∧
      (∀ err : JsonError, is_error (Except.ok (Except.error err)) = true) ∧
      (∀ err : WebSocketError, classify (Except.error err) =
        Classification.UserMessage (Except.error err)) ∧
      (∀ err : WebSocketError, is_error (Except.error err) = true) :=
  ⟨fun _ => rfl, rfl, fun _ => rfl, fun _ => rfl, fun _ => rfl, fun _ => rfl, fun _ => rfl⟩

/-- C7: `is_error` holds exactly for an outer transport failure or an
inner decode failure, and fails for a successfully decoded message; a
message decoding to a structured `ApiError` never reaches `is_error` as a
user message at all — `classify` routes it to the control channel. -/
theorem c7_is_error :
    (∀ err : WebSocketError, is_error (Except.error err) = true) ∧
      (∀ err : JsonError, is_error (Except.ok (Except.error err)) = true) ∧
      (∀ payload : Data, is_error (Except.ok (Except.ok payload)) = false) ∧
      (∀ error : ApiError,
        classify (Except.ok (Except.ok (DataMessage.Error error))) =
          Classification.ControlMessage (ControlMessage.Error error)) :=
  ⟨fun _ => rfl, fun _ => rfl, fun _ => rfl, fun _ => rfl⟩

theorem authErr_ne_closed (message : Str) (code : Nat) :
    ("failed to authenticate with server: " ++ message ++ " (" ++ toString code ++ ")") ≠
      "stream was closed before authorization message was received" := by
  intro h
  have h2 : (("failed to authenticate with server: " ++ message ++ " (" ++
        toString code ++ ")").data.head?) =
      ("stream was closed before authorization message was received" : Str).data.head? := by
    rw [h]
  have h3 : (("failed to authenticate with server: " ++ message ++ " (" ++
        toString code ++ ")").data.head?) = some 'f' := rfl
  have h4 : ("stream was closed before authorization message was received" : Str).data.head? =
      some 's' := rfl
  rw [h3, h4] at h2
  exact absurd h2 (by decide)

/-- C8: `authenticate` returns overall success on a `Success` response; a
protocol failure of the exact form "failed to authenticate with server:
(message) ((code))" on a structured `Error` response; a distinct
premature-closure failure when the stream closes with no response; and
propagates a transport send failure as the outer result — with every
non-transport outcome (an `ok` outer result) distinguishable from the
transport one (an `error` outer result). -/
theorem c8_authenticate {E : Type} :
    (authenticate (E := E) (Except.ok (some (Except.ok ControlMessage.Success))) =
        Except.ok (Except.ok ())) ∧
      (∀ (code : Nat) (message : Str),
        authenticate (E := E)
            (Except.ok (some (Except.ok (ControlMessage.Error (ApiError.mk code message))))) =
          Except.ok (Except.error (Error.Str
            ("failed to authenticate with server: " ++ message ++ " (" ++
              toString code ++ ")")))) ∧
      (authenticate (E := E) (Except.ok none) =
        Except.ok (Except.error (Error.Str
          "stream was closed before authorization message was received"))) ∧
      (∀ err : E, authenticate (Except.error err) = Except.error err) ∧
      (∀ (code : Nat) (message : Str),
        ("failed to authenticate with server: " ++ message ++ " (" ++ toString code ++ ")") ≠
          "stream was closed before authorization message was received") ∧
      (∀ (response : Option (Except Unit ControlMessage)) (err : E),
        authenticate (Except.ok response) ≠ Except.error err) := by
  refine ⟨rfl, fun _ _ => rfl, rfl, fun _ => rfl,
    fun code message => authErr_ne_closed message code, ?_⟩
  rintro (_ | (_ | ⟨_ | _⟩)) err <;> exact fun h => Except.noConfusion h

/-- C8 witness: the protocol-failure shape at the spec's literal example
(code 401, message "invalid credentials"). -/
theorem c8_authenticate_witness :
    authenticate (E := Unit)
        (Except.ok (some (Except.ok
          (ControlMessage.Error (ApiError.mk 401 "invalid credentials"))))) =
      Except.ok (Except.error (Error.Str
        "failed to authenticate with server: invalid credentials (401)")) := by
  have h := (c8_authenticate (E := Unit)).2.1 401 "invalid credentials"
  rw [h]
  rfl

/-- C9 (against the spec-modelled session operations, the source's
`subscribe`/`unsubscribe` being `todo!()` stubs): on an acknowledged
`Success`, subscribe merges the delta into the committed baseline (per
category: union then re-normalize, preserving the normalization
invariant and exactly the union's membership when no wildcard is
involved) and returns success; on a structured `Error`, a closed stream,
or a transport failure the baseline is unchanged and the corresponding
failure is returned; unsubscribe is symmetric, on `Success` removing the
delta's symbols and leaving symbols outside the delta untouched. -/
theorem c9_session_baseline {E : Type} (b d : MarketData) (error : ApiError) (err : E) :
    (subscribeModel (E := E) b d (Except.ok (some (Except.ok ControlMessage.Success))) =
        (Except.ok (Except.ok ()),
          MarketData.mk (Normalized.mk (normalize (b.bars.symbols ++ d.bars.symbols))))) ∧
      is_normalized
          (subscribeModel (E := E) b d
            (Except.ok (some (Except.ok ControlMessage.Success)))).2.bars.symbols = true ∧
      (Symbol.all ∉ b.bars.symbols → Symbol.all ∉ d.bars.symbols →
        ∀ x : Symbol,
          x ∈ (subscribeModel (E := E) b d
              (Except.ok (some (Except.ok ControlMessage.Success)))).2.bars.symbols ↔
            (x ∈ b.bars.symbols ∨ x ∈ d.bars.symbols)) ∧
      (subscribeModel (E := E) b d
          (Except.ok (some (Except.ok (ControlMessage.Error error)))) =
        (Except.ok (Except.error (Error.Str
          ("failed to subscribe with server: " ++ error.message ++ " (" ++
            toString error.code ++ ")"))), b)) ∧
      (subscribeModel (E := E) b d (Except.ok none) =
        (Except.ok (Except.error (Error.Str
          "stream was closed before subscription response was received")), b)) ∧
      (subscribeModel (E := E) b d (Except.error err) = (Except.error err, b)) ∧
      (unsubscribeModel (E := E) b d (Except.ok (some (Except.ok ControlMessage.Success))) =
        (Except.ok (Except.ok ()),
          MarketData.mk (Normalized.mk (normalize
            (b.bars.symbols.filter (fun s => !(decide (s ∈ d.bars.symbols)))))))) ∧
      (∀ x : Symbol, x ∈ d.bars.symbols →
        x ∉ (unsubscribeModel (E := E) b d
            (Except.ok (some (Except.ok ControlMessage.Success)))).2.bars.symbols) ∧
      (is_normalized b.bars.symbols = true →
        ∀ x : Symbol, x ∉ d.bars.symbols →
          (x ∈ (unsubscribeModel (E := E) b d
              (Except.ok (some (Except.ok ControlMessage.Success)))).2.bars.symbols ↔
            x ∈ b.bars.symbols)) ∧
      (unsubscribeModel (E := E) b d
          (Except.ok (some (Except.ok (ControlMessage.Error error)))) =
        (Except.ok (Except.error (Error.Str
          ("failed to unsubscribe with server: " ++ error.message ++ " (" ++
            toString error.code ++ ")"))), b)) ∧
      (unsubscribeModel (E := E) b d (Except.ok none) =
        (Except.ok (Except.error (Error.Str
          "stream was closed before subscription response was received")), b)) ∧
      (unsubscribeModel (E := E) b d (Except.error err) = (Except.error err, b)) := by
  refine ⟨rfl, normalize_isNormalized _, ?_, rfl, rfl, rfl, rfl, ?_, ?_, rfl, rfl, rfl⟩
  · intro hb hd x
    have hall : Symbol.all ∉ b.bars.symbols ++ d.bars.symbols := by
      rw [List.mem_append]
      rintro (h | h)
      · exact hb h
      · exact hd h
    show x ∈ normalize (b.bars.symbols ++ d.bars.symbols) ↔ _
    rw [mem_normalize _ hall x, List.mem_append]
  · intro x hx hmem
    have h1 := normalize_mem_subset _ _ hmem
    rw [List.mem_filter] at h1
    simp only [Bool.not_eq_true', decide_eq_false_iff_not] at h1
    exact h1.2 hx
  · intro hnb x hx
    show x ∈ normalize (b.bars.symbols.filter
        (fun s => !(decide (s ∈ d.bars.symbols)))) ↔ x ∈ b.bars.symbols
    by_cases hab : Symbol.all ∈ b.bars.symbols
    · have hb1 : b.bars.symbols = [Symbol.all] := isNormalized_all_mem _ hnb hab
      rw [hb1]
      by_cases had : Symbol.all ∈ d.bars.symbols
      · have hf : List.filter (fun s => !(decide (s ∈ d.bars.symbols))) [Symbol.all] = [] := by
          simp [List.filter, had]
        rw [hf, show normalize ([] : List Symbol) = [] from rfl]
        simp only [List.not_mem_nil, false_iff, List.mem_singleton]
        intro hxa
        exact hx (hxa ▸ had)
      · have hf : List.filter (fun s => !(decide (s ∈ d.bars.symbols))) [Symbol.all] =
            [Symbol.all] := by
          simp [List.filter, had]
        rw [hf, show normalize [Symbol.all] = [Symbol.all] from rfl]
    · have hallf : Symbol.all ∉ b.bars.symbols.filter
          (fun s => !(decide (s ∈ d.bars.symbols))) := by
        intro hmem
        exact hab (List.mem_filter.mp hmem).1
      rw [mem_normalize _ hallf x, List.mem_filter]
      simp only [Bool.not_eq_true', decide_eq_false_iff_not]
      exact ⟨And.left, fun h => ⟨h, hx⟩⟩

/-- C9 witness: the union-membership and untouched-symbol parts at the
concrete baseline `["AAPL"]` and delta `["MSFT"]`. -/
theorem c9_session_baseline_witness :
    (Symbol.sym "AAPL" ∈ (subscribeModel (E := Unit)
        (MarketData.mk (Normalized.mk [Symbol.sym "AAPL"]))
        (MarketData.mk (Normalized.mk [Symbol.sym "MSFT"]))
        (Except.ok (some (Except.ok ControlMessage.Success)))).2.bars.symbols ↔
      (Symbol.sym "AAPL" ∈ [Symbol.sym "AAPL"] ∨
        Symbol.sym "AAPL" ∈ [Symbol.sym "MSFT"])) ∧
      (Symbol.sym "AAPL" ∈ (unsubscribeModel (E := Unit)
          (MarketData.mk (Normalized.mk [Symbol.sym "AAPL"]))
          (MarketData.mk (Normalized.mk [Symbol.sym "MSFT"]))
          (Except.ok (some (Except.ok ControlMessage.Success)))).2.bars.symbols ↔
        Symbol.sym "AAPL" ∈ [Symbol.sym "AAPL"]) :=
  ⟨(c9_session_baseline (E := Unit)
      (MarketData.mk (Normalized.mk [Symbol.sym "AAPL"]))
      (MarketData.mk (Normalized.mk [Symbol.sym "MSFT"]))
      (ApiError.mk 400 "invalid syntax") ()).2.2.1
      (by decide) (by decide) (Symbol.sym "AAPL"),
    (c9_session_baseline (E := Unit)
      (MarketData.mk (Normalized.mk [Symbol.sym "AAPL"]))
      (MarketData.mk (Normalized.mk [Symbol.sym "MSFT"]))
      (ApiError.mk 400 "invalid syntax") ()).2.2.2.2.2.2.2.2.1
      (by decide) (Symbol.sym "AAPL") (by decide)⟩

/-- C10: under the string conversions, exactly the text "*" becomes the
wildcard symbol — a specific symbol with text "*" is unconstructible —
and any text list containing "*" yields the wildcard-only normalized
list. -/
theorem c10_wildcard_text :
    (∀ text : Str, Symbol.fromText text = Symbol.all ↔ text = "*") ∧
      (∀ text : Str, Symbol.fromText text ≠ Symbol.sym "*") ∧
      (∀ texts : List Str, "*" ∈ texts →
        (Normalized.ofTexts texts).symbols = [Symbol.all]) := by
  refine ⟨?_, ?_, ?_⟩
  · intro text
    by_cases h : text = "*" <;> simp [Symbol.fromText, h]
  · intro text
    by_cases h : text = "*" <;> simp [Symbol.fromText, h]
  · intro texts hm
    show normalize (texts.map Symbol.fromText) = [Symbol.all]
    apply normalize_all
    exact List.mem_map.mpr ⟨"*", hm, by simp [Symbol.fromText]⟩

/-- C10 witness: a text list containing "*" collapses to the
wildcard-only list. -/
theorem c10_wildcard_text_witness :
    (Normalized.ofTexts ["AAPL", "*", "MSFT"]).symbols = [Symbol.all] :=
  c10_wildcard_text.2.2 ["AAPL", "*", "MSFT"] (by decide)

end ApcaStream
